import Mathlib

/-!
Verification of the Optimz binary-shrinking driver (src/Optimz/src/main.cpp).

The program is a single orchestration routine: it probes that the target is a
regular executable ELF file, locates external shrink tools on PATH, makes a
one-time `.bak` copy, and then runs up to `passes` optimization passes, each a
fixed ordered sequence of tool invocations, stopping early when a pass shrinks
nothing.

The shallow embedding below models the filesystem state of the target file as
an `Option TargetFile` (none = the file is missing / its size cannot be
determined), the PATH lookup `which` as an abstract function
`find : String → Option String`, and each external tool invocation as an
opaque outcome (exit status plus resulting file state) supplied by an
environment indexed by pass number and step.  All control flow (argument
parsing with `std::stoi` semantics, precondition checks, the backup guard,
the per-step size bookkeeping of `optimizeOnce`, and the pass loop of `main`)
is translated directly from the source.
-/

/-- State of the target file when it exists: its bytes, whether the path is a
regular file (`S_ISREG`), and whether it is executable (`access X_OK`). -/
structure TargetFile where
  bytes : List Nat
  regular : Bool
  exec : Bool
deriving DecidableEq

/-- Model of `fileSize` (main.cpp:72-76): `fs::file_size` with an error code;
on any error (missing, renamed, unreadable file) the function returns 0. -/
def fileSize (t : Option TargetFile) : Nat :=
  match t with
  | none => 0
  | some f => f.bytes.length

/-- Model of `isExecutableFile` (main.cpp:19-25): `stat` must succeed (the
file exists), the mode must be `S_ISREG`, and `access(path, X_OK)` must be 0. -/
def isExecutableFile (t : Option TargetFile) : Bool :=
  match t with
  | none => false
  | some f => f.regular && f.exec

/-- Model of `isElfBinary` (main.cpp:27-39): read the first 4 bytes (fails if
the file is missing or shorter than 4 bytes) and compare them with
0x7f 'E' 'L' 'F'. -/
def isElfBinary (t : Option TargetFile) : Bool :=
  match t with
  | none => false
  | some f =>
    match f.bytes with
    | b0 :: b1 :: b2 :: b3 :: _ => b0 == 0x7f && b1 == 69 && b2 == 76 && b3 == 70
    | _ => false

/-- The five optional tool paths of `struct Tools` (main.cpp:78-84). -/
structure Tools where
  strip : Option String
  objcopy : Option String
  upx : Option String
  patchelf : Option String
  sstrip : Option String
deriving DecidableEq

/-- Model of `detectTools` (main.cpp:86-100).  The PATH scan `which` is
abstracted as `find`; the LLVM-before-GNU fallback chain is kept verbatim. -/
def detectTools (find : String → Option String) : Tools where
  strip := match find "llvm-strip" with
    | some p => some p
    | none => find "strip"
  objcopy := match find "llvm-objcopy" with
    | some p => some p
    | none => find "objcopy"
  upx := find "upx"
  patchelf := find "patchelf"
  sstrip := find "sstrip"

/-- The double-quote character, written by code point to keep the embedding
of the quoting logic readable. -/
def dq : Char := Char.ofNat 34

/-- Command-line construction of `runCommand` (main.cpp:55-65), per argument:
an argument containing a space character is wrapped in double quotes
(`args[i].find(' ') != npos`), anything else is inserted verbatim. -/
def quoteArg (a : String) : String :=
  if a.data.contains ' ' then String.singleton dq ++ a ++ String.singleton dq
  else a

/-- Command-line construction of `runCommand` (main.cpp:55-65): the quoted
arguments joined with single spaces. -/
def buildCmd : List String → String
  | [] => ""
  | [a] => quoteArg a
  | a :: b :: rest => quoteArg a ++ " " ++ buildCmd (b :: rest)

/-- Model of `backupOnce` (main.cpp:102-113) over the state of the `.bak`
sibling: if the backup already exists return success without touching it,
otherwise copy the target's current content; `copyOk` tells whether
`fs::copy_file` succeeds.  Returns (success, resulting backup state). -/
def backupOnce (bak : Option (List Nat)) (copyOk : Bool) (content : List Nat) :
    Bool × Option (List Nat) :=
  match bak with
  | some b => (true, some b)
  | none => if copyOk then (true, some content) else (false, none)

/-- The eight possible shrink steps of one pass, in source order
(main.cpp:129-157). -/
inductive StepTag where
  | stripUnneeded
  | stripAll
  | stripDebug
  | removeSections
  | compressDebugSections
  | shrinkRpath
  | superStrip
  | upxPack
deriving DecidableEq

/-- Argument vector passed to `runCommand` for each step (main.cpp:129-157),
given the located tool paths and the target path. -/
def stepCmd (t : Tools) (target : String) : StepTag → List String
  | .stripUnneeded => [t.strip.getD "", "--strip-unneeded", target]
  | .stripAll => [t.strip.getD "", "--strip-all", target]
  | .stripDebug => [t.objcopy.getD "", "--strip-debug", target]
  | .removeSections => [t.objcopy.getD "", "--remove-section=.comment",
      "--remove-section=.note", "--remove-section=.note.*",
      "--remove-section=.gnu_debuglink", target]
  | .compressDebugSections => [t.objcopy.getD "", "--compress-debug-sections", target]
  | .shrinkRpath => [t.patchelf.getD "", "--shrink-rpath", target]
  | .superStrip => [t.sstrip.getD "", target]
  | .upxPack => [t.upx.getD "", "--best", "--lzma", target]

/-- The steps one call of `optimizeOnce` executes, in source order
(main.cpp:129-157): each block is guarded by presence of its tool. -/
def passSteps (t : Tools) : List StepTag :=
  (if t.strip.isSome then [.stripUnneeded, .stripAll] else []) ++
  (if t.objcopy.isSome then [.stripDebug, .removeSections, .compressDebugSections] else []) ++
  (if t.patchelf.isSome then [.shrinkRpath] else []) ++
  (if t.sstrip.isSome then [.superStrip] else []) ++
  (if t.upx.isSome then [.upxPack] else [])

/-- Outcome of one external tool invocation: the exit status returned by
`runCommand` and the state of the target file after the tool ran. -/
structure StepOutcome where
  rc : Nat
  after : Option TargetFile
deriving DecidableEq

/-- The `tryStep` loop body of `optimizeOnce` (main.cpp:120-127) iterated over
the executed steps: `sizeNow` tracks the last measured size, `cur` the target
file state, `any` the `anyShrank` flag; a step sets the flag when its exit
status is 0 and the freshly measured size is strictly below `beforeStep`. -/
def runStepsM (env : StepTag → StepOutcome) :
    List StepTag → Nat → Option TargetFile → Bool → Bool × Option TargetFile
  | [], _, cur, any => (any, cur)
  | tag :: rest, sizeNow, _, any =>
    let o := env tag
    let size2 := fileSize o.after
    runStepsM env rest size2 o.after (any || (o.rc == 0 && decide (size2 < sizeNow)))

/-- Model of `optimizeOnce` (main.cpp:115-161): measure the initial size, run
the tool-guarded steps in order, return the `anyShrank` flag and the final
file state. -/
def optimizeOnce (t : Tools) (env : StepTag → StepOutcome) (cur : Option TargetFile) :
    Bool × Option TargetFile :=
  runStepsM env (passSteps t) (fileSize cur) cur false

/-- Characters accepted as leading whitespace by `std::stoi` (C locale
`isspace`). -/
def isCppSpace (c : Char) : Bool :=
  c = ' ' || c = '\t' || c = '\n' || c = Char.ofNat 11 || c = Char.ofNat 12 || c = '\r'

/-- Value of a digit string. -/
def digitsVal (ds : List Char) : Nat :=
  ds.foldl (fun a c => a * 10 + (c.toNat - 48)) 0

/-- Model of `std::stoi` as used at main.cpp:181: skip leading whitespace,
read an optional sign, then a maximal nonempty run of digits (trailing
characters are ignored); `none` models a thrown `invalid_argument` (no
digits) or `out_of_range` (outside 32-bit int), both swallowed by the
`catch (...)` at main.cpp:182. -/
def stoiM (cs : List Char) : Option Int :=
  let cs1 := cs.dropWhile isCppSpace
  let sgn : Int := match cs1 with
    | '-' :: _ => -1
    | _ => 1
  let cs2 := match cs1 with
    | '-' :: r => r
    | '+' :: r => r
    | _ => cs1
  let ds := cs2.takeWhile Char.isDigit
  if ds.isEmpty then none
  else
    let v : Int := sgn * (digitsVal ds : Nat)
    if v < -(2 ^ 31) || (2 ^ 31 - 1) < v then none else some v

/-- Parsing of the optional count argument (main.cpp:176-190) from the argv
entries after the target path: absent means 1 pass; present, it must start
with a dash and its suffix goes through `std::stoi`; `none` is the exit-1
diagnostic path. -/
def countFromArgs (rest2 : List String) : Option Int :=
  match rest2 with
  | [] => some 1
  | a2 :: _ =>
    match a2.data with
    | '-' :: tail => stoiM tail
    | _ => none

/-- The clamp `if (passes < 1) passes = 1` (main.cpp:191). -/
def clamp1 (p : Int) : Int :=
  if p < 1 then 1 else p

/-- The missing-tools test of main.cpp:207: only the strip, objcopy and upx
capabilities count. -/
def noToolsCk (t : Tools) : Bool :=
  t.strip.isNone && t.objcopy.isNone && t.upx.isNone

/-- Bytes of the target used by the backup copy (the target exists whenever
this is consulted). -/
def targetBytes (t : Option TargetFile) : List Nat :=
  match t with
  | some f => f.bytes
  | none => []

/-- The external world `main` interacts with: the target file, the PATH
lookup, the `.bak` sibling, whether `fs::copy_file` would succeed, and the
outcome of every tool invocation, indexed by pass number and step. -/
structure World where
  target : Option TargetFile
  find : String → Option String
  bak : Option (List Nat)
  copyOk : Bool
  stepEnv : Nat → StepTag → StepOutcome

/-- Observable result of a run: process exit code, final `.bak` state, the
`shrank` result of each executed pass in order, final target state. -/
structure MainResult where
  exitCode : Nat
  finalBak : Option (List Nat)
  passResults : List Bool
  finalTarget : Option TargetFile
deriving DecidableEq

/-- The pass loop of `main` (main.cpp:214-221): run `optimizeOnce` up to the
remaining number of passes, stop as soon as a pass reports no shrink; `done`
indexes the per-pass environment.  Returns the per-pass results and the
final target state. -/
def mainLoop (t : Tools) (env : Nat → StepTag → StepOutcome) :
    Nat → Nat → Option TargetFile → List Bool × Option TargetFile
  | 0, _, cur => ([], cur)
  | rem + 1, done, cur =>
    let r := optimizeOnce t (env done) cur
    if r.1 then
      let rest := mainLoop t env rem (done + 1) r.2
      (true :: rest.1, rest.2)
    else ([false], r.2)

/-- Model of `main` (main.cpp:169-225): argument checks, count parsing with
clamping, the four precondition checks in source order, the backup guard,
then the pass loop; every `return 1` path is an exit code 1 with the world
untouched. -/
def mainRun (argv : List String) (w : World) : MainResult :=
  match argv with
  | [] => ⟨1, w.bak, [], w.target⟩
  | [_] => ⟨1, w.bak, [], w.target⟩
  | _ :: _ :: rest2 =>
    match countFromArgs rest2 with
    | none => ⟨1, w.bak, [], w.target⟩
    | some p0 =>
      let passes := clamp1 p0
      if w.target.isNone then ⟨1, w.bak, [], w.target⟩
      else if isExecutableFile w.target = false then ⟨1, w.bak, [], w.target⟩
      else if isElfBinary w.target = false then ⟨1, w.bak, [], w.target⟩
      else
        let tools := detectTools w.find
        if noToolsCk tools then ⟨1, w.bak, [], w.target⟩
        else
          let bres := backupOnce w.bak w.copyOk (targetBytes w.target)
          if bres.1 = false then ⟨1, bres.2, [], w.target⟩
          else
            let lres := mainLoop tools w.stepEnv passes.toNat 0 w.target
            ⟨0, bres.2, lres.1, lres.2⟩

/-! Spec-side models, used only to state claims about the code-side
definitions above. -/

/-- From the spec (section 4.5): a pass shrank the file iff at least one
executed step exited with status 0 and left the file size strictly below the
size immediately before that step — the logical OR across steps. -/
def specSomeStepShrank (env : StepTag → StepOutcome) : List StepTag → Nat → Bool
  | [], _ => false
  | tag :: rest, sizeBefore =>
    ((env tag).rc == 0 && decide (fileSize (env tag).after < sizeBefore))
      || specSomeStepShrank env rest (fileSize (env tag).after)

/-- Default field-splitting characters of a POSIX shell (space, tab,
newline), used by the spec-side tokenizer below. -/
def isIFS (c : Char) : Bool :=
  c = ' ' || c = '\t' || c = '\n'

/-- Spec-side model of how the invoked shell tokenizes the constructed
command line: double quotes toggle quoting, unquoted field-splitting
characters separate tokens.  `inQ` is the in-quotes state, `started` whether
the current token has begun, `acc` its characters in reverse. -/
def shSplitAux : List Char → Bool → Bool → List Char → List String
  | [], _, started, acc => if started then [String.mk acc.reverse] else []
  | c :: cs, true, _, acc =>
    if c = dq then shSplitAux cs false true acc
    else shSplitAux cs true true (c :: acc)
  | c :: cs, false, started, acc =>
    if c = dq then shSplitAux cs true true acc
    else if isIFS c then
      (if started then [String.mk acc.reverse] else []) ++ shSplitAux cs false false []
    else shSplitAux cs false true (c :: acc)

/-- Spec-side model of the shell's word splitting applied to a command
line. -/
def shellTokens (s : String) : List String :=
  shSplitAux s.data false false []

/-! Concrete fixtures used by witnesses and counterexamples. -/

/-- A minimal valid target: regular, executable, with the ELF magic. -/
def elfFile : TargetFile := ⟨[0x7f, 69, 76, 70], true, true⟩

/-- A PATH on which no tool is found. -/
def findNone : String → Option String := fun _ => none

/-- A PATH on which only `patchelf` is found. -/
def findPatchelfOnly : String → Option String :=
  fun n => if n = "patchelf" then some "/usr/bin/patchelf" else none

/-- A PATH on which only `llvm-strip` is found. -/
def findStripOnly : String → Option String :=
  fun n => if n = "llvm-strip" then some "/usr/bin/llvm-strip" else none

/-- Tool invocations that all fail with exit status 1 and leave the target
unchanged. -/
def envNoop : Nat → StepTag → StepOutcome := fun _ _ => ⟨1, some elfFile⟩

/-- World with a valid target and only `patchelf` on PATH. -/
def wPatchelfOnly : World := ⟨some elfFile, findPatchelfOnly, none, true, envNoop⟩

/-- World with a valid target and only `llvm-strip` on PATH. -/
def wStripOnly : World := ⟨some elfFile, findStripOnly, none, true, envNoop⟩

/-- World with a valid target and an empty PATH. -/
def wNoTools : World := ⟨some elfFile, findNone, none, true, envNoop⟩

/-- World whose target file is missing. -/
def wMissing : World := ⟨none, findNone, none, true, envNoop⟩

/-- Tool invocations that exit 0 but leave the target in a state whose size
cannot be determined. -/
def envKill : StepTag → StepOutcome := fun _ => ⟨0, none⟩

/-- A tool set with strip, objcopy and upx present. -/
def toolsBothEx : Tools := ⟨some "/s", some "/o", some "/u", none, none⟩

/-! Helper lemmas. -/

/-- The `anyShrank` flag computed by the step loop is the starting flag ORed
with the spec's per-step disjunction. -/
lemma runStepsM_fst (env : StepTag → StepOutcome) :
    ∀ (l : List StepTag) (sz : Nat) (cur : Option TargetFile) (any : Bool),
      (runStepsM env l sz cur any).1 = (any || specSomeStepShrank env l sz) := by
  intro l
  induction l with
  | nil => intro sz cur any; simp [runStepsM, specSomeStepShrank]
  | cons tag rest ih =>
    intro sz cur any
    simp only [runStepsM, specSomeStepShrank]
    rw [ih, Bool.or_assoc]

/-- A target that passes the executable-file check exists. -/
lemma isNone_false_of_exec (t : Option TargetFile) (h : isExecutableFile t = true) :
    t.isNone = false := by
  rcases t with _ | f
  · simp [isExecutableFile] at h
  · rfl

/-- Unfolding of `mainRun` on the success path: with a parsed count, a valid
target, some checked tool present and a working backup, the run performs the
pass loop and exits 0. -/
lemma mainRun_ok (a0 a1 : String) (rest2 : List String) (w : World) (p0 : Int)
    (hp : countFromArgs rest2 = some p0)
    (hexec : isExecutableFile w.target = true)
    (helf : isElfBinary w.target = true)
    (htools : noToolsCk (detectTools w.find) = false)
    (hbak : (backupOnce w.bak w.copyOk (targetBytes w.target)).1 = true) :
    mainRun (a0 :: a1 :: rest2) w =
      ⟨0, (backupOnce w.bak w.copyOk (targetBytes w.target)).2,
       (mainLoop (detectTools w.find) w.stepEnv (clamp1 p0).toNat 0 w.target).1,
       (mainLoop (detectTools w.find) w.stepEnv (clamp1 p0).toNat 0 w.target).2⟩ := by
  have hsome := isNone_false_of_exec w.target hexec
  simp [mainRun, hp, hsome, hexec, helf, htools, hbak]

/-! Claim theorems. -/

/-- C1: a single pass returns true if and only if at least one executed step
both exited with status 0 and left the target's file size strictly smaller
than it was immediately before that step (logical OR across steps),
independent of the pass-start-to-pass-end size comparison. -/
theorem optimizeOnce_pass_shrank_iff (t : Tools) (env : StepTag → StepOutcome)
    (cur : Option TargetFile) :
    (optimizeOnce t env cur).1 = specSomeStepShrank env (passSteps t) (fileSize cur) := by
  unfold optimizeOnce
  rw [runStepsM_fst]
  simp

/-- C6: the backup step is idempotent: if the backup already exists it
succeeds without modifying it, repeating it is a no-op, and a successful
fresh backup holds exactly the target's pre-optimization content. -/
theorem backupOnce_idempotent (bak : Option (List Nat)) (copyOk : Bool) (content : List Nat) :
    backupOnce (backupOnce bak copyOk content).2 copyOk content
        = backupOnce bak copyOk content ∧
    (∀ b, bak = some b → backupOnce bak copyOk content = (true, some b)) ∧
    (bak = none → (backupOnce bak copyOk content).1 = true →
      (backupOnce bak copyOk content).2 = some content) := by
  rcases bak with _ | b
  · cases copyOk <;> simp [backupOnce]
  · simp [backupOnce]

/-- Witness for C6: a fresh successful backup stores the original content. -/
theorem backupOnce_idempotent_witness :
    (backupOnce none true [1, 2, 3]).2 = some [1, 2, 3] :=
  (backupOnce_idempotent none true [1, 2, 3]).2.2 rfl rfl

/-- C10: when the target's size cannot be determined the measurement yields
0, so a step that exits 0 and leaves the target unreadable counts as having
shrunk the file, and the loop continues over the remaining steps with the
missing target; the pass reports a shrink. -/
theorem fileSize_error_counts_as_shrink (env : StepTag → StepOutcome) (tag : StepTag)
    (rest : List StepTag) (sz : Nat) (cur : Option TargetFile) (any : Bool)
    (h0 : (env tag).rc = 0) (hn : (env tag).after = none) (hsz : 0 < sz) :
    fileSize (env tag).after = 0 ∧
    runStepsM env (tag :: rest) sz cur any = runStepsM env rest 0 none true ∧
    (runStepsM env (tag :: rest) sz cur any).1 = true := by
  have h1 : fileSize (env tag).after = 0 := by rw [hn]; rfl
  have h2 : runStepsM env (tag :: rest) sz cur any = runStepsM env rest 0 none true := by
    simp only [runStepsM]
    rw [hn, h0]
    simp [fileSize, hsz]
  refine ⟨h1, h2, ?_⟩
  rw [h2, runStepsM_fst]
  simp

/-- Witness for C10 at a concrete deleting step. -/
theorem fileSize_error_counts_as_shrink_witness :
    fileSize (envKill .stripUnneeded).after = 0 ∧
    runStepsM envKill [.stripUnneeded] 4 (some elfFile) false
        = runStepsM envKill [] 0 none true ∧
    (runStepsM envKill [.stripUnneeded] 4 (some elfFile) false).1 = true :=
  fileSize_error_counts_as_shrink envKill .stripUnneeded [] 4 (some elfFile) false
    rfl rfl (by decide)

/-- C8: when both the strip tool and the packer are present, the upx step is
the last step of the pass and every strip step precedes it. -/
theorem upx_last_after_strip (t : Tools)
    (hs : t.strip.isSome = true) (hu : t.upx.isSome = true) :
    ∃ l, passSteps t = l ++ [StepTag.upxPack] ∧
      StepTag.upxPack ∉ l ∧ StepTag.stripUnneeded ∈ l ∧ StepTag.stripAll ∈ l := by
  refine ⟨[.stripUnneeded, .stripAll] ++
    (if t.objcopy.isSome then [.stripDebug, .removeSections, .compressDebugSections] else []) ++
    (if t.patchelf.isSome then [.shrinkRpath] else []) ++
    (if t.sstrip.isSome then [.superStrip] else []), ?_, ?_, ?_, ?_⟩
  · simp [passSteps, hs, hu, List.append_assoc]
  · intro hmem
    simp only [List.append_assoc, List.mem_append] at hmem
    rcases hmem with h | h | h | h
    · simp at h
    · split at h <;> simp at h
    · split at h <;> simp at h
    · split at h <;> simp at h
  · simp
  · simp

/-- Witness for C8 at a concrete tool set with both tools present. -/
theorem upx_last_after_strip_witness :
    ∃ l, passSteps toolsBothEx = l ++ [StepTag.upxPack] ∧
      StepTag.upxPack ∉ l ∧ StepTag.stripUnneeded ∈ l ∧ StepTag.stripAll ∈ l :=
  upx_last_after_strip toolsBothEx rfl rfl

/-- C5: whenever the target is missing, not a regular executable, not an ELF
file, or no tool at all is located, the run exits 1 before the backup guard:
the backup and the target are exactly as they were and no pass executes. -/
theorem precondition_failure_no_mutation (argv : List String) (w : World)
    (h : w.target = none ∨ isExecutableFile w.target = false ∨
         isElfBinary w.target = false ∨
         detectTools w.find = ⟨none, none, none, none, none⟩) :
    (mainRun argv w).exitCode = 1 ∧ (mainRun argv w).finalBak = w.bak ∧
    (mainRun argv w).finalTarget = w.target ∧ (mainRun argv w).passResults = [] := by
  have key : mainRun argv w = ⟨1, w.bak, [], w.target⟩ := by
    match argv with
    | [] => rfl
    | [_] => rfl
    | a :: b :: rest2 =>
      cases hc : countFromArgs rest2 with
      | none => simp [mainRun, hc]
      | some p0 =>
        simp only [mainRun, hc]
        rcases h with h | h | h | h
        · simp [h]
        · simp [h]
        · simp [h]
        · simp [h, noToolsCk]
  rw [key]
  exact ⟨rfl, rfl, rfl, rfl⟩

/-- Witness for C5: a missing target is rejected without any mutation. -/
theorem precondition_failure_no_mutation_witness :
    (mainRun ["optimz", "app"] wMissing).exitCode = 1 ∧
    (mainRun ["optimz", "app"] wMissing).finalBak = wMissing.bak ∧
    (mainRun ["optimz", "app"] wMissing).finalTarget = wMissing.target ∧
    (mainRun ["optimz", "app"] wMissing).passResults = [] :=
  precondition_failure_no_mutation ["optimz", "app"] wMissing (Or.inl rfl)

/-- Counterexample to C2 as stated: with only the run-path shrinker
(patchelf) located — so at least one of the five capabilities is present —
and a fully valid target, the run still exits 1. -/
theorem missing_tools_exit_counterexample :
    (detectTools wPatchelfOnly.find).patchelf.isSome = true ∧
    isExecutableFile wPatchelfOnly.target = true ∧
    isElfBinary wPatchelfOnly.target = true ∧
    (mainRun ["optimz", "app"] wPatchelfOnly).exitCode = 1 := by
  refine ⟨by decide, by decide, by decide, by decide⟩

/-- C2 (amended): assuming the target passes its checks and the backup
succeeds, the run exits 1 for missing tools exactly when none of the three
checked capabilities (strip, debug-section editor, packer) is located;
otherwise it exits 0, regardless of the run-path shrinker and super-strip. -/
theorem missing_tools_exit (a0 a1 : String) (w : World)
    (hexec : isExecutableFile w.target = true)
    (helf : isElfBinary w.target = true)
    (hbak : (backupOnce w.bak w.copyOk (targetBytes w.target)).1 = true) :
    (mainRun [a0, a1] w).exitCode =
      if noToolsCk (detectTools w.find) then 1 else 0 := by
  cases ht : noToolsCk (detectTools w.find) with
  | false =>
    rw [mainRun_ok a0 a1 [] w 1 rfl hexec helf ht hbak]
    simp [ht]
  | true =>
    have hsome := isNone_false_of_exec w.target hexec
    simp [mainRun, countFromArgs, hsome, hexec, helf, ht]

/-- Witness for C2 (amended): with zero tools located the run exits 1. -/
theorem missing_tools_exit_witness :
    (mainRun ["optimz", "app"] wNoTools).exitCode =
      if noToolsCk (detectTools wNoTools.find) then 1 else 0 :=
  missing_tools_exit "optimz" "app" wNoTools rfl rfl rfl

/-- Counterexample to C4 as stated: the suffix "2abc" of "-2abc" is not a
non-negative integer, yet the run is not a usage error — it completes with
exit code 0 (std::stoi reads the leading "2" and ignores the rest). -/
theorem count_arg_stoi_counterexample :
    List.all "2abc".data Char.isDigit = false ∧
    (mainRun ["optimz", "app", "-2abc"] wStripOnly).exitCode = 0 := by
  refine ⟨by decide, by decide⟩

/-- C4 (amended): a second argument not beginning with '-' exits 1; one
beginning with '-' is accepted exactly when std::stoi can parse a leading
integer from its suffix (optional whitespace and sign, then at least one
digit, within int range — trailing garbage ignored), in which case the run
completes with exit 0 on a valid world; an omitted second argument behaves
as pass count 1. -/
theorem count_arg_stoi_semantics (a0 a1 a2 : String) (w : World)
    (hexec : isExecutableFile w.target = true)
    (helf : isElfBinary w.target = true)
    (htools : noToolsCk (detectTools w.find) = false)
    (hbak : (backupOnce w.bak w.copyOk (targetBytes w.target)).1 = true) :
    ((mainRun [a0, a1, a2] w).exitCode =
      match a2.data with
      | '-' :: tail => if (stoiM tail).isSome then 0 else 1
      | _ => 1) ∧
    mainRun [a0, a1] w = mainRun [a0, a1, "-1"] w := by
  constructor
  · cases hd : a2.data with
    | nil =>
      have hc : countFromArgs [a2] = none := by simp [countFromArgs, hd]
      simp [mainRun, hc]
    | cons c tl =>
      by_cases hc' : c = '-'
      · subst hc'
        cases hs : stoiM tl with
        | none =>
          have hc : countFromArgs [a2] = none := by simp [countFromArgs, hd, hs]
          simp [mainRun, hc, hs]
        | some k =>
          have hc : countFromArgs [a2] = some k := by simp [countFromArgs, hd, hs]
          rw [mainRun_ok a0 a1 [a2] w k hc hexec helf htools hbak]
          simp [hs]
      · have hc : countFromArgs [a2] = none := by
          show (match a2.data with
            | '-' :: tail => stoiM tail
            | _ => none) = none
          rw [hd]
          split
          · next tail heq =>
            injection heq with h1 h2
            exact absurd h1 hc'
          · rfl
        have hr : (match c :: tl with
            | '-' :: tail => if (stoiM tail).isSome then (0 : Nat) else 1
            | _ => 1) = 1 := by
          split
          · next tail heq =>
            injection heq with h1 h2
            exact absurd h1 hc'
          · rfl
        rw [hr]
        simp [mainRun, hc]
  · rw [mainRun_ok a0 a1 [] w 1 rfl hexec helf htools hbak,
        mainRun_ok a0 a1 ["-1"] w 1 (by decide) hexec helf htools hbak]

/-- Witness for C4 (amended) at the accepted argument "-2". -/
theorem count_arg_stoi_semantics_witness :
    ((mainRun ["optimz", "app", "-2"] wStripOnly).exitCode =
      match "-2".data with
      | '-' :: tail => if (stoiM tail).isSome then 0 else 1
      | _ => 1) ∧
    mainRun ["optimz", "app"] wStripOnly = mainRun ["optimz", "app", "-1"] wStripOnly :=
  count_arg_stoi_semantics "optimz" "app" "-2" wStripOnly rfl rfl (by decide) rfl

/-- C9: a second argument whose suffix parses to a count of zero or less
behaves exactly like omitting the count argument (one pass). -/
theorem nonpositive_count_clamped (a0 a1 a2 : String) (w : World)
    (tail : List Char) (k : Int)
    (ha : a2.data = '-' :: tail) (hk : stoiM tail = some k) (hk0 : k ≤ 0) :
    mainRun [a0, a1, a2] w = mainRun [a0, a1] w := by
  have h1 : countFromArgs [a2] = some k := by simp [countFromArgs, ha, hk]
  have h2 : countFromArgs ([] : List String) = some 1 := rfl
  have hc : clamp1 k = clamp1 1 := by
    simp only [clamp1]
    rw [if_pos (by omega), if_neg (by omega)]
  simp only [mainRun, h1, h2, hc]

/-- Witness for C9 at the concrete argument "--3". -/
theorem nonpositive_count_clamped_witness :
    mainRun ["optimz", "app", "--3"] wStripOnly = mainRun ["optimz", "app"] wStripOnly :=
  nonpositive_count_clamped "optimz" "app" "--3" wStripOnly ['-', '3'] (-3)
    rfl (by decide) (by decide)

/-- Once a pass reports no shrink, it is the last executed pass. -/
lemma mainLoop_no_false_before_end (t : Tools) (env : Nat → StepTag → StepOutcome) :
    ∀ (rem done : Nat) (cur : Option TargetFile) (l₁ l₂ : List Bool),
      (mainLoop t env rem done cur).1 = l₁ ++ false :: l₂ → l₂ = [] := by
  intro rem
  induction rem with
  | zero =>
    intro done cur l₁ l₂ h
    simp only [mainLoop] at h
    cases l₁ <;> simp at h
  | succ n ih =>
    intro done cur l₁ l₂ h
    simp only [mainLoop] at h
    by_cases hr : (optimizeOnce t (env done) cur).1
    · rw [if_pos hr] at h
      cases l₁ with
      | nil => simp at h
      | cons a l₁' =>
        simp only [List.cons_append, List.cons.injEq] at h
        exact ih (done + 1) _ l₁' l₂ h.2
    · rw [if_neg hr] at h
      cases l₁ with
      | nil =>
        rw [List.nil_append] at h
        injection h with h1 h2
        exact h2.symm
      | cons a l₁' =>
        simp only [List.cons_append, List.cons.injEq] at h
        rcases h with ⟨rfl, h2⟩
        cases l₁' <;> simp at h2

/-- C7: for a requested pass count above 1 on a valid world, a pass that
reports no size-reducing step is never followed by another pass, and the run
exits 0. -/
theorem early_stop_no_further_pass (a0 a1 a2 : String) (w : World)
    (tail : List Char) (k : Int)
    (ha : a2.data = '-' :: tail) (hk : stoiM tail = some k) (_hk1 : 1 < k)
    (hexec : isExecutableFile w.target = true)
    (helf : isElfBinary w.target = true)
    (htools : noToolsCk (detectTools w.find) = false)
    (hbak : (backupOnce w.bak w.copyOk (targetBytes w.target)).1 = true) :
    (∀ l₁ l₂, (mainRun [a0, a1, a2] w).passResults = l₁ ++ false :: l₂ → l₂ = []) ∧
    (mainRun [a0, a1, a2] w).exitCode = 0 := by
  have hc : countFromArgs [a2] = some k := by simp [countFromArgs, ha, hk]
  rw [mainRun_ok a0 a1 [a2] w k hc hexec helf htools hbak]
  exact ⟨fun l₁ l₂ h => mainLoop_no_false_before_end _ _ _ _ _ l₁ l₂ h, rfl⟩

/-- Witness for C7: two passes requested, the first shrinks nothing, exactly
one pass runs and the run exits 0. -/
theorem early_stop_no_further_pass_witness :
    (mainRun ["optimz", "app", "-2"] wStripOnly).passResults = [false] ∧
    (mainRun ["optimz", "app", "-2"] wStripOnly).exitCode = 0 :=
  ⟨by decide,
   (early_stop_no_further_pass "optimz" "app" "-2" wStripOnly ['2'] 2 rfl (by decide)
      (by decide) rfl rfl (by decide) rfl).2⟩

/-- Consuming an unquoted run of ordinary (non-separator, non-quote)
characters accumulates them into the current token. -/
lemma shSplitAux_plain (cs : List Char) :
    ∀ (t : List Char) (st : Bool) (acc : List Char),
      (∀ c ∈ t, isIFS c = false ∧ c ≠ dq) →
      shSplitAux (t ++ cs) false st acc
        = shSplitAux cs false (st || !t.isEmpty) (t.reverse ++ acc) := by
  intro t
  induction t with
  | nil => intro st acc _; simp
  | cons c t' ih =>
    intro st acc h
    have hc := h c (List.mem_cons_self c t')
    simp only [List.cons_append, shSplitAux, List.append_eq]
    rw [if_neg hc.2, if_neg (by simp [hc.1])]
    rw [ih true (c :: acc) (fun x hx => h x (List.mem_cons_of_mem c hx))]
    simp [List.append_assoc]

/-- Consuming quoted characters up to the closing double quote accumulates
them into the current token. -/
lemma shSplitAux_quoted (cs : List Char) :
    ∀ (t acc : List Char), (∀ c ∈ t, c ≠ dq) →
      shSplitAux (t ++ dq :: cs) true true acc
        = shSplitAux cs false true (t.reverse ++ acc) := by
  intro t
  induction t with
  | nil => intro acc _; simp [shSplitAux]
  | cons c t' ih =>
    intro acc h
    simp only [List.cons_append, shSplitAux, List.append_eq]
    rw [if_neg (h c (List.mem_cons_self c t'))]
    rw [ih (c :: acc) (fun x hx => h x (List.mem_cons_of_mem c hx))]
    simp [List.append_assoc]

/-- An unquoted space after a started token emits the token and restarts. -/
lemma shSplitAux_sep (cs acc : List Char) :
    shSplitAux (' ' :: cs) false true acc
      = String.mk acc.reverse :: shSplitAux cs false false [] := by
  simp only [shSplitAux]
  rw [if_neg (by decide), if_pos (by decide)]
  simp

/-- Consuming one quoted argument from the front of the command line leaves
the tokenizer holding exactly that argument's characters. -/
lemma shSplitAux_quoteArg (a : String) (cs : List Char)
    (hne : a.data ≠ [])
    (hok : ∀ c ∈ a.data, c ≠ '\t' ∧ c ≠ '\n' ∧ c ≠ dq) :
    shSplitAux ((quoteArg a).data ++ cs) false false []
      = shSplitAux cs false true a.data.reverse := by
  unfold quoteArg
  by_cases hsp : a.data.contains ' '
  · rw [if_pos hsp]
    have hd : (String.singleton dq ++ a ++ String.singleton dq).data
        = dq :: (a.data ++ [dq]) := by
      obtain ⟨la⟩ := a
      rfl
    rw [hd, List.cons_append]
    have hstep : shSplitAux (dq :: ((a.data ++ [dq]) ++ cs)) false false []
        = shSplitAux ((a.data ++ [dq]) ++ cs) true true [] := by
      simp [shSplitAux]
    rw [hstep, List.append_assoc, List.singleton_append]
    rw [shSplitAux_quoted cs a.data [] (fun c hc => (hok c hc).2.2)]
    rw [List.append_nil]
  · rw [if_neg hsp]
    rw [shSplitAux_plain cs a.data false [] ?cond]
    case cond =>
      intro c hc
      refine ⟨?_, (hok c hc).2.2⟩
      have h3 : c ≠ ' ' := by
        intro he
        exact hsp (List.elem_eq_true_of_mem (he ▸ hc))
      simp [isIFS, (hok c hc).1, (hok c hc).2.1, h3]
    have hf : a.data.isEmpty = false := by
      cases hx : a.data with
      | nil => exact absurd hx hne
      | cons y ys => rfl
    simp [hf]

/-- Data of a command line built from a quoted head, a space and a tail. -/
lemma data_append_sep (x y : String) :
    (x ++ " " ++ y).data = x.data ++ (' ' :: y.data) := by
  simp [String.data_append, List.append_assoc]

/-- Counterexample to C3 as stated: the argument "a\tb" contains whitespace
(a tab), yet the constructed command line leaves it unprotected and the
shell splits it into two tokens. -/
theorem whitespace_quoting_counterexample :
    List.any "a\tb".data isIFS = true ∧
    shellTokens (buildCmd ["t", "a\tb"]) ≠ ["t", "a\tb"] := by
  refine ⟨by decide, by decide⟩

/-- C3 (amended): only arguments containing a space character are quoted, so
the shell receives each argument as a single token only under the proviso
that every argument is nonempty and free of tabs, newlines and double
quotes; under that proviso the argument vector is preserved faithfully. -/
theorem quoting_preserves_space_args (args : List String) :
    args ≠ [] →
    (∀ a ∈ args, a.data ≠ [] ∧ ∀ c ∈ a.data, c ≠ '\t' ∧ c ≠ '\n' ∧ c ≠ dq) →
    shellTokens (buildCmd args) = args := by
  induction args with
  | nil => intro hne _; exact absurd rfl hne
  | cons a rest ih =>
    intro _ h
    have ha := h a (List.mem_cons_self a rest)
    cases rest with
    | nil =>
      show shSplitAux (buildCmd [a]).data false false [] = [a]
      have hb : (buildCmd [a]).data = (quoteArg a).data ++ [] := by
        simp [buildCmd]
      rw [hb, shSplitAux_quoteArg a [] ha.1 ha.2]
      simp only [shSplitAux, List.reverse_reverse]
      rfl
    | cons b rest' =>
      show shSplitAux (buildCmd (a :: b :: rest')).data false false [] = a :: b :: rest'
      have hb : (buildCmd (a :: b :: rest')).data
          = (quoteArg a).data ++ (' ' :: (buildCmd (b :: rest')).data) := by
        show (quoteArg a ++ " " ++ buildCmd (b :: rest')).data = _
        exact data_append_sep _ _
      rw [hb, shSplitAux_quoteArg a _ ha.1 ha.2, shSplitAux_sep, List.reverse_reverse]
      have ihr : shSplitAux (buildCmd (b :: rest')).data false false [] = b :: rest' :=
        ih (List.cons_ne_nil b rest') (fun x hx => h x (List.mem_cons_of_mem a hx))
      rw [ihr]

/-- Witness for C3 (amended): a space-containing argument survives the round
trip through the constructed command line. -/
theorem quoting_preserves_space_args_witness :
    shellTokens (buildCmd ["echo", "a b"]) = ["echo", "a b"] :=
  quoting_preserves_space_args ["echo", "a b"] (by decide) (by decide)
